import Mathlib

/-!
Verification development for the luaBn arithmetic dispatch layer
(src/luaBn.c).

The embedding models the library for its canonical configuration:
`LUA_NUMBER_DOUBLE` (so `luaBn_Int = int64_t`, `luaBn_UInt = uint64_t`,
`LUABN_UINT_MAX = UINT64_MAX`) on an LP64 platform with OpenSSL's
`BN_ULONG` 64 bits wide (so `LUABN_UINT_MAX == ULONG_MAX`).

A `BIGNUM` is modelled as a sign/magnitude pair.  The OpenSSL primitives
(`BN_add`, `BN_sub`, `BN_div`, `BN_add_word`, ...) are external
collaborators of the repository; they are modelled here by their
documented value semantics on sign/magnitude pairs (exact signed
arithmetic, truncating division with remainder sign following the
dividend, zero stored with a non-negative sign).  Host numbers are
modelled as integers (the claims under verification quantify over
integral host values only).
-/

/-- Sign/magnitude model of an OpenSSL `BIGNUM`: `neg` is the sign flag,
`mag` the magnitude. -/
structure BN where
  neg : Bool
  mag : Nat
deriving DecidableEq

/-- The mathematical value of a `BIGNUM`. -/
def BN.val (b : BN) : Int := if b.neg then -(b.mag : Int) else (b.mag : Int)

/-- Build the sign/magnitude representation of an integer (zero gets a
non-negative sign). -/
def fromInt (z : Int) : BN := ⟨decide (z < 0), z.natAbs⟩

/-- Normalized-zero predicate: the value zero is never stored with a
negative sign flag. -/
def normZero (b : BN) : Prop := b.mag = 0 → b.neg = false

/-- Error taxonomy of the wrapper (spec section 7). -/
inductive Err where
  | typeErr : Err
  | parse (msg : String) : Err
  | arith (msg : String) : Err
  | assertFail : Err
deriving DecidableEq

/-- An operand of a binary operation: a host number (restricted to
integral values), a host string, or a `bn.number` userdata. -/
inductive Operand where
  | num (d : Int)
  | str (s : String)
  | big (b : BN)
deriving DecidableEq

/-! ### Modelled OpenSSL primitives -/

/-- `BN_zero`. -/
def BN_zero' : BN := ⟨false, 0⟩

/-- `BN_set_word`. -/
def BN_set_word (w : Nat) : BN := ⟨false, w⟩

/-- `BN_is_zero`. -/
def BN_is_zero (b : BN) : Bool := b.mag == 0

/-- `BN_is_negative`. -/
def BN_is_negative (b : BN) : Bool := b.neg

/-- `BN_set_negative`: OpenSSL never lets zero become negative. -/
def BN_set_negative (b : BN) (n : Bool) : BN :=
  if n && !(BN_is_zero b) then ⟨true, b.mag⟩ else ⟨false, b.mag⟩

/-- The `negatebignum` macro of src/luaBn.c:
`BN_set_negative(bn, !BN_is_negative(bn))`. -/
def negatebignum (b : BN) : BN := BN_set_negative b (!(BN_is_negative b))

/-- `BN_lshift` (left shift of the magnitude, sign kept). -/
def BN_lshift (b : BN) (k : Nat) : BN := ⟨b.neg, b.mag <<< k⟩

/-- `BN_add_word`: exact signed addition of a word. -/
def BN_add_word (b : BN) (w : Nat) : BN := fromInt (b.val + (w : Int))

/-- `BN_sub_word`: exact signed subtraction of a word. -/
def BN_sub_word (b : BN) (w : Nat) : BN := fromInt (b.val - (w : Int))

/-- `BN_add`. -/
def BN_add (a b : BN) : BN := fromInt (a.val + b.val)

/-- `BN_sub`. -/
def BN_sub (a b : BN) : BN := fromInt (a.val - b.val)

/-- `BN_mul`. -/
def BN_mul (a b : BN) : BN := fromInt (a.val * b.val)

/-- `BN_mul_word`: multiplies the magnitude in place; a zero input is
returned unchanged, a zero word yields `BN_zero`. -/
def BN_mul_word (b : BN) (w : Nat) : BN :=
  if b.mag = 0 then b
  else if w = 0 then BN_zero'
  else ⟨b.neg, b.mag * w⟩

/-- `BN_copy` (value copy). -/
def BN_copy (b : BN) : BN := b

/-- `BN_cmp`: three-way signed comparison, sign flags first, then
magnitudes. -/
def BN_cmp (a b : BN) : Int :=
  if a.neg ≠ b.neg then (if a.neg then -1 else 1)
  else if a.neg then
    (if a.mag < b.mag then 1 else if a.mag = b.mag then 0 else -1)
  else
    (if a.mag < b.mag then -1 else if a.mag = b.mag then 0 else 1)

/-- `BN_is_word`: equality against a non-negative word value. -/
def BN_is_word (b : BN) (w : Nat) : Bool :=
  b.mag == w && (w == 0 || !b.neg)

/-- `BN_div_word`: divides the magnitude by `w` in place (quotient keeps
the sign except that zero is normalized) and returns the remainder of
the magnitudes.  Callers only invoke it with `w ≠ 0`. -/
def BN_div_word (b : BN) (w : Nat) : BN × Nat :=
  (⟨b.neg && !(b.mag / w == 0), b.mag / w⟩, b.mag % w)

/-- `BN_mod_word`: remainder of the magnitudes. -/
def BN_mod_word (b : BN) (w : Nat) : Nat := b.mag % w

/-- `BN_div`: truncating signed division; `none` on a zero divisor
(`BN_R_DIV_BY_ZERO`).  Quotient sign is the xor of the operand signs,
remainder sign follows the dividend, both with zero normalized. -/
def BN_div' (a b : BN) : Option (BN × BN) :=
  if b.mag = 0 then none
  else some (⟨(a.neg != b.neg) && !(a.mag / b.mag == 0), a.mag / b.mag⟩,
             ⟨a.neg && !(a.mag % b.mag == 0), a.mag % b.mag⟩)

/-- Modelled from the spec: `BN_mod_exp` (not part of this repository)
fails on a non-positive modulus (division by zero for `m = 0`; modular
exponentiation requires a positive modulus) and otherwise returns
`a ^ e mod m`, a value in `[0, m)`.  A negative exponent is also an
error. -/
def BN_mod_exp (a e m : BN) : Option BN :=
  if m.val ≤ 0 then none
  else if e.neg then none
  else some (fromInt ((a.val ^ e.mag) % m.val))

/-! ### Number coercion (`numbertobignum`, src/luaBn.c:263-320) -/

/-- `wshift` constant of `numbertobignum`. -/
def wshift : Nat := 32

/-- `wmask` constant of `numbertobignum`. -/
def wmask : Nat := 0xffffffff

/-- `nwords = CHAR_BIT * sizeof(luaBn_UInt) / wshift = 64/32`. -/
def nwords : Nat := 2

/-- `LUABN_UINT_MAX = UINT64_MAX` in the double configuration. -/
def LUABN_UINT_MAX : Nat := 2 ^ 64 - 1

/-- One iteration of the limb-accumulation loop of `numbertobignum`. -/
def accStep (rv : BN) (w : Nat) : BN :=
  if !(BN_is_zero rv) then BN_add_word (BN_lshift rv wshift) w
  else if w ≠ 0 then BN_set_word w
  else rv

/-- The limb-accumulation loop of `numbertobignum` (lines 289-302):
big-endian 32-bit limbs of the unsigned 64-bit pattern `n`, skipping
leading zero limbs. -/
def numacc (n : Nat) : BN :=
  (List.range nwords).reverse.foldl
    (fun rv i => accStep rv ((n >>> (wshift * i)) &&& wmask)) BN_zero'

/-- The cached modulo constant `2^W` built by `init_modulo_val` (only
used when `LUABN_UINT_MAX > ULONG_MAX`): the decimal numeral of
`LUABN_UINT_MAX` plus one. -/
def modulo_val (W : Nat) : BN := BN_add_word ⟨false, 2 ^ W - 1⟩ 1

/-- The sign step of `numbertobignum` (lines 304-317), with the three
preprocessor configurations expressed as run-time comparisons of
`LUABN_UINT_MAX = 2^W - 1` against `ULONG_MAX = ulongMax`:
one word-subtraction of `LUABN_UINT_MAX + 1` when below, two
word-subtractions when equal, subtraction of the cached `2^W` constant
when above. -/
def signStep (W ulongMax : Nat) (rv : BN) : BN :=
  if 2 ^ W - 1 < ulongMax then BN_sub_word rv (2 ^ W - 1 + 1)
  else if 2 ^ W - 1 = ulongMax then
    BN_sub_word (BN_sub_word rv 1) (2 ^ W - 1)
  else BN_sub rv (modulo_val W)

/-- `numbertobignum` (src/luaBn.c:263-320) for the double/LP64
configuration: `n = (luaBn_UInt)(luaBn_Int)d` is the 64-bit
two's-complement pattern of `d`, accumulated as big-endian 32-bit limbs,
then the sign step subtracts `2^64` for negative inputs. -/
def numbertobignum (d : Int) : BN :=
  let n : Nat := (d % (2 ^ 64 : Int)).toNat
  let rv := numacc n
  if d < 0 then signStep 64 LUABN_UINT_MAX rv else rv

/-! ### String coercion (`stringtobignum`, src/luaBn.c:204-231) -/

/-- C `isxdigit`. -/
def isXDigit (c : Char) : Bool :=
  c.isDigit || ('a' ≤ c && c ≤ 'f') || ('A' ≤ c && c ≤ 'F')

/-- Numeric value of one hexadecimal digit. -/
def hexDigitVal (c : Char) : Nat :=
  if c.isDigit then c.toNat - 48
  else if 'a' ≤ c ∧ c ≤ 'f' then c.toNat - 87
  else c.toNat - 55

/-- Value of a list of decimal digits. -/
def decVal (cs : List Char) : Nat :=
  cs.foldl (fun a c => a * 10 + (c.toNat - 48)) 0

/-- Value of a list of hexadecimal digits. -/
def hexVal (cs : List Char) : Nat :=
  cs.foldl (fun a c => a * 16 + hexDigitVal c) 0

/-- `BN_dec2bn`: an optional leading `-`, then the longest run of
decimal digits; fails (returns length 0) when that run is empty.
Trailing characters are ignored. -/
def dec2bn (cs : List Char) : Option BN :=
  let neg : Bool := cs.head? == some '-'
  let rest := if neg then cs.tail else cs
  let digs := rest.takeWhile Char.isDigit
  if digs.isEmpty then none
  else some (BN_set_negative ⟨false, decVal digs⟩ neg)

/-- `BN_hex2bn`: an optional leading `-`, then the longest run of
hexadecimal digits; fails when that run is empty. -/
def hex2bn (cs : List Char) : Option BN :=
  let neg : Bool := cs.head? == some '-'
  let rest := if neg then cs.tail else cs
  let digs := rest.takeWhile isXDigit
  if digs.isEmpty then none
  else some (BN_set_negative ⟨false, hexVal digs⟩ neg)

/-- `stringtobignum` (src/luaBn.c:204-231): skip at most one leading
`0`; if the next character is `x`/`X`, parse the remainder with
`BN_hex2bn`, else parse the whole string with `BN_dec2bn`; raise the
parse error when the parser consumed nothing. -/
def stringtobignum (s : String) : Except Err BN :=
  let cs := s.data
  let z : Nat := if cs.head? == some '0' then 1 else 0
  if cs.get? z == some 'x' || cs.get? z == some 'X' then
    match hex2bn (cs.drop (z + 1)) with
    | some b => .ok b
    | none => .error (.parse "unable to parse bn.number")
  else
    match dec2bn cs with
    | some b => .ok b
    | none => .error (.parse "unable to parse bn.number")

/-! ### Host-side helpers -/

/-- Modelled from the spec: the host language's string-to-number
conversion (`lua_tonumber` on strings), an out-of-scope collaborator
(spec section 1), restricted to integral numerals: the entire string
must be an optionally-signed decimal or hexadecimal numeral; any other
string converts to 0 as `lua_tonumber` does. -/
def luaStr2num (s : String) : Option Int :=
  let cs := s.data
  let neg : Bool := cs.head? == some '-'
  let rest := if neg then cs.tail else cs
  match rest with
  | '0' :: x :: t =>
    if x = 'x' ∨ x = 'X' then
      if !t.isEmpty && t.all isXDigit then
        some (if neg then -(hexVal t : Int) else (hexVal t : Int))
      else none
    else
      if rest.all Char.isDigit then
        some (if neg then -(decVal rest : Int) else (decVal rest : Int))
      else none
  | _ =>
    if !rest.isEmpty && rest.all Char.isDigit then
      some (if neg then -(decVal rest : Int) else (decVal rest : Int))
    else none

/-- `lua_tonumber` on an operand: numbers convert to themselves, strings
through the host parser (0 when not convertible), userdata to 0. -/
def lua_tonumberOp : Operand → Int
  | .num d => d
  | .str s => (luaStr2num s).getD 0
  | .big _ => 0

/-- `absnumber` (src/luaBn.c:154-167): the absolute value of `d` when it
fits a `BN_ULONG`, otherwise 0. -/
def absnumber (d : Int) : Nat :=
  if 0 < d ∧ d < 2 ^ 64 then d.toNat
  else if 0 < -d ∧ -d < 2 ^ 64 then (-d).toNat
  else 0

/-- `luaBn_tobignum` (src/luaBn.c:326-338) on an operand value. -/
def luaBn_tobignumOp : Operand → Except Err BN
  | .num d => .ok (numbertobignum d)
  | .str s => stringtobignum s
  | .big b => .ok b

/-! ### Operator dispatch helpers -/

/-- `h_addsub` (src/luaBn.c:486-540): `sgn = 1` for add, `-1` for sub;
`ismt` marks the metamethod variant whose first argument is asserted to
be a `bn.number` when the second is not. -/
def h_addsub (sgn : Int) (errmsg : String) (ismt : Bool) (x y : Operand) :
    Except Err BN :=
  let _ := errmsg
  match y with
  | .big b2 =>
    match x with
    | .big b1 =>
      .ok (if 0 < sgn then BN_add b1 b2 else BN_sub b1 b2)
    | _ =>
      let d := lua_tonumberOp x
      let n := absnumber d
      if n = 0 then
        match luaBn_tobignumOp x with
        | .error e => .error e
        | .ok b1 => .ok (if 0 < sgn then BN_add b1 b2 else BN_sub b1 b2)
      else
        let r0 := BN_copy b2
        let r1 := if 0 < sgn * d then BN_add_word r0 n else BN_sub_word r0 n
        .ok (if sgn * 1 = -1 then negatebignum r1 else r1)
  | _ =>
    let e1 : Except Err BN :=
      if ismt then
        match x with
        | .big b1 => .ok b1
        | _ => .error .assertFail
      else luaBn_tobignumOp x
    match e1 with
    | .error e => .error e
    | .ok b1 =>
      let d := lua_tonumberOp y
      let n := absnumber d
      if n = 0 then
        match luaBn_tobignumOp y with
        | .error e => .error e
        | .ok b2 => .ok (if 0 < sgn then BN_add b1 b2 else BN_sub b1 b2)
      else
        let r0 := BN_copy b1
        let r1 := if 0 < sgn * d then BN_add_word r0 n else BN_sub_word r0 n
        .ok (if sgn * 2 = -1 then negatebignum r1 else r1)

/-- `h_mul` (src/luaBn.c:570-622). -/
def h_mul (errmsg : String) (ismt : Bool) (x y : Operand) : Except Err BN :=
  let _ := errmsg
  match x with
  | .big b1 =>
    match y with
    | .big b2 => .ok (BN_mul b1 b2)
    | _ =>
      let d := lua_tonumberOp y
      let n := absnumber d
      if n = 0 then
        match luaBn_tobignumOp y with
        | .error e => .error e
        | .ok b2 => .ok (BN_mul b1 b2)
      else
        let r0 := BN_copy b1
        let r1 := if 0 < -d then negatebignum r0 else r0
        .ok (BN_mul_word r1 n)
  | _ =>
    let e2 : Except Err BN :=
      if ismt then
        match y with
        | .big b2 => .ok b2
        | _ => .error .assertFail
      else luaBn_tobignumOp y
    match e2 with
    | .error e => .error e
    | .ok b2 =>
      let d := lua_tonumberOp x
      let n := absnumber d
      if n = 0 then
        match luaBn_tobignumOp x with
        | .error e => .error e
        | .ok b1 => .ok (BN_mul b1 b2)
      else
        let r0 := BN_copy b2
        let r1 := if 0 < -d then negatebignum r0 else r0
        .ok (BN_mul_word r1 n)

/-- `h_div` (src/luaBn.c:638-695): always allocates a fresh result; word
fast path when the divisor is a host number whose absolute value fits a
word (copy the dividend, negate the copy for a negative divisor, then
`BN_div_word`), generic `BN_div` otherwise. -/
def h_div (errmsg : String) (ismt : Bool) (x y : Operand) : Except Err BN :=
  match y with
  | .big b2 =>
    match luaBn_tobignumOp x with
    | .error e => .error e
    | .ok b1 =>
      match BN_div' b1 b2 with
      | some (q, _) => .ok q
      | none => .error (.arith errmsg)
  | _ =>
    let e1 : Except Err BN :=
      if ismt then
        match x with
        | .big b1 => .ok b1
        | _ => .error .assertFail
      else luaBn_tobignumOp x
    match e1 with
    | .error e => .error e
    | .ok b1 =>
      let d := lua_tonumberOp y
      let n := absnumber d
      if n = 0 then
        match luaBn_tobignumOp y with
        | .error e => .error e
        | .ok b2 =>
          match BN_div' b1 b2 with
          | some (q, _) => .ok q
          | none => .error (.arith errmsg)
      else
        let r0 := BN_copy b1
        let r1 := if 0 < -d then negatebignum r0 else r0
        let qr := BN_div_word r1 n
        if qr.2 ≠ LUABN_UINT_MAX then .ok qr.1 else .error (.arith errmsg)

/-- `mt_mod` (src/luaBn.c:711-764): fresh result; word fast path
computes `BN_mod_word` on the dividend's magnitude, asserts the
remainder is below the divisor word, and restores the dividend's sign;
generic path uses the remainder output of `BN_div`. -/
def mt_mod (x y : Operand) : Except Err BN :=
  match y with
  | .big b2 =>
    match luaBn_tobignumOp x with
    | .error e => .error e
    | .ok b1 =>
      match BN_div' b1 b2 with
      | some (_, r) => .ok r
      | none => .error (.arith "bn.number.__mod")
  | _ =>
    match x with
    | .big b1 =>
      let d := lua_tonumberOp y
      let n := absnumber d
      if n = 0 then
        match luaBn_tobignumOp y with
        | .error e => .error e
        | .ok b2 =>
          match BN_div' b1 b2 with
          | some (_, r) => .ok r
          | none => .error (.arith "bn.number.__mod")
      else
        let rem := BN_mod_word b1 n
        if rem < n then
          .ok (BN_set_negative (BN_set_word rem) (BN_is_negative b1))
        else .error .assertFail
    | _ => .error .assertFail

/-- `f_cmp` (src/luaBn.c:766-777). -/
def f_cmp (x y : Operand) : Except Err Int :=
  match luaBn_tobignumOp x with
  | .error e => .error e
  | .ok a =>
    match luaBn_tobignumOp y with
    | .error e => .error e
    | .ok b => .ok (BN_cmp a b)

/-- `f_eq` (src/luaBn.c:863-907): dedicated word fast path comparing
sign and magnitude of the already-realized side against the word value,
generic `BN_cmp` otherwise. -/
def f_eq (x y : Operand) : Except Err Bool :=
  match x, y with
  | .big b1, .big b2 => .ok (decide (BN_cmp b1 b2 = 0))
  | .big b1, _ =>
    let d := lua_tonumberOp y
    let n := absnumber d
    if n = 0 then
      match luaBn_tobignumOp y with
      | .error e => .error e
      | .ok b2 => .ok (decide (BN_cmp b1 b2 = 0))
    else
      let isneg := BN_is_negative b1
      if isneg == decide (d < 0) then
        .ok (BN_is_word (BN_set_negative b1 false) n)
      else .ok false
  | _, _ =>
    let eb2 : Except Err BN :=
      match y with
      | .big b2 => .ok b2
      | _ => luaBn_tobignumOp y
    match eb2 with
    | .error e => .error e
    | .ok b2 =>
      let d := lua_tonumberOp x
      let n := absnumber d
      if n = 0 then
        match luaBn_tobignumOp x with
        | .error e => .error e
        | .ok b1 => .ok (decide (BN_cmp b1 b2 = 0))
      else
        let isneg := BN_is_negative b2
        if isneg == decide (d < 0) then
          .ok (BN_is_word (BN_set_negative b2 false) n)
        else .ok false

/-- `f_modpow` (src/luaBn.c:970-988). -/
def f_modpow (x y z : Operand) : Except Err BN :=
  match luaBn_tobignumOp x with
  | .error e => .error e
  | .ok b1 =>
    match luaBn_tobignumOp y with
    | .error e => .error e
    | .ok b2 =>
      match luaBn_tobignumOp z with
      | .error e => .error e
      | .ok m =>
        match BN_mod_exp b1 b2 m with
        | some r => .ok r
        | none => .error (.arith "bn.modpow")

/-- `mt_unm` (src/luaBn.c:437-452): copy, then `negatebignum`. -/
def mt_unm (b : BN) : BN := negatebignum (BN_copy b)

/-- Minimal big-endian byte encoding of a magnitude (`BN_bn2bin`):
empty for zero. -/
def bn2bin : Nat → List Nat
  | 0 => []
  | n + 1 => bn2bin ((n + 1) / 256) ++ [(n + 1) % 256]
decreasing_by
  exact Nat.div_lt_self (Nat.succ_pos n) (by decide)

/-- `f_tobin` (src/luaBn.c:349-384): the string of `BN_num_bytes` bytes
written by `BN_bn2bin`, the minimal big-endian encoding of the
magnitude (the sign is not encoded). -/
def f_tobin (b : BN) : List Nat := bn2bin b.mag

/-! ### Heap model for allocation/aliasing (claim about `h_div`/`mt_mod`
frame behavior).  The heap is the list of `bn.number` objects created so
far; an operand refers to an object by its index. -/

/-- An operand for the heap model: `big ix` is a reference to heap cell
`ix`. -/
inductive OperandH where
  | num (d : Int)
  | str (s : String)
  | big (ix : Nat)
deriving DecidableEq

/-- `lua_tonumber` in the heap model. -/
def lua_tonumberH : OperandH → Int
  | .num d => d
  | .str s => (luaStr2num s).getD 0
  | .big _ => 0

/-- Heap read (out-of-range reads yield zero; theorems only use valid
indices). -/
def hpget (hp : List BN) (i : Nat) : BN := hp.getD i BN_zero'

/-- `luaBn_tobignum` in the heap model: an existing `bn.number` is
borrowed (its index returned), a number or string materializes a new
object appended to the heap (`newbignum` + conversion, replacing the
stack slot). -/
def tobignumH (hp : List BN) (o : OperandH) : List BN × Except Err Nat :=
  match o with
  | .big i => (hp, .ok i)
  | .num d => (hp ++ [numbertobignum d], .ok hp.length)
  | .str s =>
    match stringtobignum s with
    | .ok b => (hp ++ [b], .ok hp.length)
    | .error e => (hp ++ [BN_zero'], .error e)

/-- `h_div` in the heap model: `bn[0] = newbignum(L)` first (a fresh
cell), all writes target that cell, operands are only read. -/
def h_divH (errmsg : String) (ismt : Bool) (hp : List BN) (x y : OperandH) :
    List BN × Except Err Nat :=
  let r0 := hp.length
  let hp0 := hp ++ [BN_zero']
  match y with
  | .big j =>
    let s1 := tobignumH hp0 x
    match s1.2 with
    | .error e => (s1.1, .error e)
    | .ok i =>
      match BN_div' (hpget s1.1 i) (hpget s1.1 j) with
      | some (q, _) => (s1.1.set r0 q, .ok r0)
      | none => (s1.1, .error (.arith errmsg))
  | _ =>
    let s1 : List BN × Except Err Nat :=
      if ismt then
        match x with
        | .big i => (hp0, .ok i)
        | _ => (hp0, .error .assertFail)
      else tobignumH hp0 x
    match s1.2 with
    | .error e => (s1.1, .error e)
    | .ok i =>
      let d := lua_tonumberH y
      let n := absnumber d
      if n = 0 then
        let s2 := tobignumH s1.1 y
        match s2.2 with
        | .error e => (s2.1, .error e)
        | .ok j =>
          match BN_div' (hpget s2.1 i) (hpget s2.1 j) with
          | some (q, _) => (s2.1.set r0 q, .ok r0)
          | none => (s2.1, .error (.arith errmsg))
      else
        let hp2 := s1.1.set r0 (BN_copy (hpget s1.1 i))
        let hp3 :=
          if 0 < -d then hp2.set r0 (negatebignum (hpget hp2 r0)) else hp2
        let qr := BN_div_word (hpget hp3 r0) n
        let hp4 := hp3.set r0 qr.1
        if qr.2 ≠ LUABN_UINT_MAX then (hp4, .ok r0)
        else (hp4, .error (.arith errmsg))

/-- `mt_mod` in the heap model. -/
def mt_modH (hp : List BN) (x y : OperandH) : List BN × Except Err Nat :=
  let r0 := hp.length
  let hp0 := hp ++ [BN_zero']
  match y with
  | .big j =>
    let s1 := tobignumH hp0 x
    match s1.2 with
    | .error e => (s1.1, .error e)
    | .ok i =>
      match BN_div' (hpget s1.1 i) (hpget s1.1 j) with
      | some (_, r) => (s1.1.set r0 r, .ok r0)
      | none => (s1.1, .error (.arith "bn.number.__mod"))
  | _ =>
    match x with
    | .big i =>
      let d := lua_tonumberH y
      let n := absnumber d
      if n = 0 then
        let s2 := tobignumH hp0 y
        match s2.2 with
        | .error e => (s2.1, .error e)
        | .ok j =>
          match BN_div' (hpget s2.1 i) (hpget s2.1 j) with
          | some (_, r) => (s2.1.set r0 r, .ok r0)
          | none => (s2.1, .error (.arith "bn.number.__mod"))
      else
        let rem := BN_mod_word (hpget hp0 i) n
        if rem < n then
          let hp2 := hp0.set r0 (BN_set_word rem)
          let hp3 :=
            hp2.set r0
              (BN_set_negative (hpget hp2 r0) (BN_is_negative (hpget hp2 i)))
          (hp3, .ok r0)
        else (hp0, .error .assertFail)
    | _ => (hp0, .error .assertFail)

/-! ### Spec-side definitions (for refinement comparison) -/

/-- The spec's grammar of an acceptable numeral (claim C6's words): a
full optionally-signed decimal numeral, or a full `0x`/`0X`-prefixed
hexadecimal numeral. -/
def isValidNumeralSpec (s : String) : Bool :=
  let cs := s.data
  (match cs with
   | '-' :: t => !t.isEmpty && t.all Char.isDigit
   | _ => !cs.isEmpty && cs.all Char.isDigit)
  ||
  (match cs with
   | '0' :: x :: t => (x == 'x' || x == 'X') && !t.isEmpty && t.all isXDigit
   | _ => false)

/-- Acceptance condition actually implemented by `stringtobignum`: after
the code's prefix detection, the selected parser consumes at least one
digit, i.e. the selected body starts with an optionally-signed digit. -/
def headDigitAfterSign (isD : Char → Bool) (cs : List Char) : Bool :=
  match cs with
  | [] => false
  | c :: t =>
    if c = '-' then
      match t with
      | [] => false
      | c2 :: _ => isD c2
    else isD c

/-- Which strings `stringtobignum` accepts, stated as a grammar: with
the code's `z`-offset hex detection, the hex body (after the prefix)
or the whole string (decimal) must begin with an optionally-signed
digit of the selected base. -/
def acceptedNumeralHead (s : String) : Bool :=
  let cs := s.data
  let z : Nat := if cs.head? == some '0' then 1 else 0
  if cs.get? z == some 'x' || cs.get? z == some 'X' then
    headDigitAfterSign isXDigit (cs.drop (z + 1))
  else
    headDigitAfterSign Char.isDigit cs

/-! ### Operand well-formedness -/

/-- Host numbers must lie in the exact range of `luaBn_Int = int64_t`
(the C cast `(luaBn_Int)d` is undefined outside it); strings are
excluded (their comparison semantics route through the host parser,
out of scope); `bn.number` operands are unrestricted. -/
def opOK : Operand → Prop
  | .num d => -(2 ^ 63) ≤ d ∧ d < 2 ^ 63
  | .str _ => False
  | .big _ => True

/-- Mathematical value of an operand (under `opOK`). -/
def opVal : Operand → Int
  | .num d => d
  | .str _ => 0
  | .big b => b.val

/-- Big operands carry a normalized zero (the invariant under
preservation). -/
def opNorm : Operand → Prop
  | .big b => normZero b
  | _ => True

/-- A successful result satisfies normalized zero. -/
def okNorm (r : Except Err BN) : Prop := ∀ b, r = .ok b → normZero b

instance : DecidablePred opOK := fun o => by
  cases o <;> simp [opOK] <;> infer_instance

instance : DecidablePred opNorm := fun o => by
  cases o <;> simp [opNorm, normZero] <;> infer_instance

instance {ε α : Type} [DecidableEq ε] [DecidableEq α] :
    DecidableEq (Except ε α) := fun a b =>
  match a, b with
  | .error e, .error f => decidable_of_iff (e = f) (by simp)
  | .ok x, .ok y => decidable_of_iff (x = y) (by simp)
  | .error _, .ok _ => isFalse (by simp)
  | .ok _, .error _ => isFalse (by simp)

/-! ### Basic lemmas about the representation -/

theorem fromInt_val (z : Int) : (fromInt z).val = z := by
  simp only [fromInt, BN.val]
  split <;> rename_i h <;> simp only [decide_eq_true_eq, decide_eq_false_iff_not] at h <;> omega

theorem fromInt_norm (z : Int) : normZero (fromInt z) := by
  intro h
  simp only [fromInt] at h ⊢
  simp only [decide_eq_false_iff_not, not_lt]
  omega

theorem eq_fromInt_of_norm {b : BN} (hb : normZero b) : b = fromInt b.val := by
  obtain ⟨n, m⟩ := b
  cases n with
  | false =>
    have hv : (BN.mk false m).val = (m : Int) := by simp [BN.val]
    rw [hv]
    simp only [fromInt, BN.mk.injEq, Int.natAbs_ofNat]
    refine ⟨?_, trivial⟩
    symm
    rw [decide_eq_false_iff_not]
    omega
  | true =>
    have hm : m ≠ 0 := fun h => by simpa using hb h
    have hv : (BN.mk true m).val = -(m : Int) := by simp [BN.val]
    rw [hv]
    simp only [fromInt, BN.mk.injEq, Int.natAbs_neg, Int.natAbs_ofNat]
    refine ⟨?_, trivial⟩
    symm
    rw [decide_eq_true_eq]
    omega

theorem BN_set_negative_norm (b : BN) (n : Bool) :
    normZero (BN_set_negative b n) := by
  unfold BN_set_negative
  split <;> rename_i h <;> intro hm
  · simp only at hm
    simp [BN_is_zero, hm] at h
  · rfl

theorem negatebignum_norm (b : BN) : normZero (negatebignum b) :=
  BN_set_negative_norm b _

theorem negatebignum_val (b : BN) : (negatebignum b).val = -b.val := by
  obtain ⟨n, m⟩ := b
  by_cases hm : m = 0
  · subst hm
    cases n <;>
      simp [negatebignum, BN_set_negative, BN_is_negative, BN_is_zero, BN.val]
  · have hb : (m == 0) = false := by simp [hm]
    cases n <;>
      simp [negatebignum, BN_set_negative, BN_is_negative, BN_is_zero, hb, BN.val]

theorem negatebignum_fromInt (z : Int) :
    negatebignum (fromInt z) = fromInt (-z) := by
  rw [eq_fromInt_of_norm (negatebignum_norm (fromInt z)), negatebignum_val,
    fromInt_val]

theorem BN_cmp_eq_zero_iff (a b : BN) :
    BN_cmp a b = 0 ↔ (a.neg = b.neg ∧ a.mag = b.mag) := by
  constructor
  · intro h
    by_cases h1 : a.neg = b.neg
    · refine ⟨h1, ?_⟩
      unfold BN_cmp at h
      rw [if_neg (by simp [h1])] at h
      split at h <;> split at h <;> omega
    · exfalso
      unfold BN_cmp at h
      rw [if_pos h1] at h
      split at h <;> omega
  · intro ⟨hn, hm⟩
    unfold BN_cmp
    rw [if_neg (by simp [hn])]
    have hlt : ¬a.mag < b.mag := by omega
    split <;> simp [hlt, hm]

/-! ### Value and normalization of `numbertobignum` -/

theorem numacc_unfold (n : Nat) :
    numacc n = accStep (accStep BN_zero' ((n >>> 32) &&& wmask)) (n &&& wmask) := rfl

theorem wmask_eq : wmask = 2 ^ 32 - 1 := by norm_num [wmask]

theorem BN_lshift_val (b : BN) (k : Nat) :
    (BN_lshift b k).val = b.val * 2 ^ k := by
  obtain ⟨n, m⟩ := b
  cases n <;> simp [BN_lshift, BN.val, Nat.shiftLeft_eq]

theorem accStep_val (rv : BN) (w : Nat) :
    (accStep rv w).val = rv.val * 2 ^ wshift + (w : Int) := by
  unfold accStep
  by_cases hz : rv.mag = 0
  · have hv : rv.val = 0 := by
      obtain ⟨n, m⟩ := rv
      simp only at hz
      subst hz
      cases n <;> simp [BN.val]
    have hb : BN_is_zero rv = true := by simp [BN_is_zero, hz]
    rw [hb]
    simp only [Bool.not_true, Bool.false_eq_true, if_false]
    split <;> rename_i hw
    · rw [hv]
      simp [BN_set_word, BN.val]
    · simp only [ne_eq, not_not] at hw
      rw [hv, hw]
      simp
  · have hb : BN_is_zero rv = false := by simp [BN_is_zero, hz]
    rw [hb]
    simp only [Bool.not_false, if_true]
    rw [BN_add_word, fromInt_val, BN_lshift_val]

theorem numacc_val (n : Nat) (hn : n < 2 ^ 64) : (numacc n).val = (n : Int) := by
  have h1 : n &&& wmask = n % 2 ^ 32 := by
    rw [wmask_eq]; exact Nat.and_pow_two_sub_one_eq_mod n 32
  have h2 : (n >>> 32) &&& wmask = (n / 2 ^ 32) % 2 ^ 32 := by
    rw [wmask_eq, Nat.and_pow_two_sub_one_eq_mod, Nat.shiftRight_eq_div_pow]
  rw [numacc_unfold, h1, h2, accStep_val, accStep_val]
  have hzv : BN_zero'.val = 0 := rfl
  rw [hzv]
  have e32 : (2 : Nat) ^ 32 = 4294967296 := by norm_num
  have e64 : (2 : Nat) ^ 64 = 18446744073709551616 := by norm_num
  have ew : (2 : Int) ^ wshift = 4294967296 := by norm_num [wshift]
  rw [ew, e32]
  rw [e64] at hn
  push_cast
  omega

theorem accStep_norm (rv : BN) (w : Nat) (h : normZero rv) :
    normZero (accStep rv w) := by
  unfold accStep
  split
  · exact fromInt_norm _
  · split
    · intro hm; rfl
    · exact h

theorem numacc_norm (n : Nat) : normZero (numacc n) := by
  rw [numacc_unfold]
  apply accStep_norm
  apply accStep_norm
  intro _; rfl

theorem signStep_val (W u : Nat) (rv : BN) :
    (signStep W u rv).val = rv.val - 2 ^ W := by
  have h1 : (1 : Nat) ≤ 2 ^ W := Nat.one_le_two_pow
  unfold signStep
  split
  · rw [BN_sub_word, fromInt_val]
    rw [Nat.sub_add_cancel h1]
    push_cast
    ring
  · split
    · simp only [BN_sub_word, fromInt_val]
      rw [Nat.cast_sub h1]
      push_cast
      ring
    · have hmv : (modulo_val W).val = (2 ^ W : Int) := by
        rw [modulo_val, BN_add_word, fromInt_val]
        have hh : ((⟨false, 2 ^ W - 1⟩ : BN)).val = ((2 ^ W - 1 : Nat) : Int) := by
          simp [BN.val]
        rw [hh, Nat.cast_sub h1]
        push_cast
        ring
      rw [BN_sub, fromInt_val, hmv]

theorem signStep_norm (W u : Nat) (rv : BN) : normZero (signStep W u rv) := by
  unfold signStep
  split
  · exact fromInt_norm _
  · split
    · exact fromInt_norm _
    · exact fromInt_norm _

theorem numbertobignum_val (d : Int) (h1 : -(2 ^ 63) ≤ d) (h2 : d < 2 ^ 63) :
    (numbertobignum d).val = d := by
  have e63 : ((2 : Int) ^ 63) = 9223372036854775808 := by norm_num
  have e64 : ((2 : Int) ^ 64) = 18446744073709551616 := by norm_num
  have e64n : ((2 : Nat) ^ 64) = 18446744073709551616 := by norm_num
  unfold numbertobignum
  by_cases hd : d < 0
  · simp only [if_pos hd]
    rw [signStep_val, numacc_val]
    · have : ((d % (2 ^ 64 : Int)).toNat : Int) = d + 2 ^ 64 := by omega
      rw [this]
      push_cast
      ring
    · omega
  · simp only [if_neg hd]
    rw [numacc_val]
    · omega
    · omega

theorem numbertobignum_norm (d : Int) : normZero (numbertobignum d) := by
  unfold numbertobignum
  split
  · exact signStep_norm _ _ _
  · exact numacc_norm _

theorem numbertobignum_eq_fromInt (d : Int) (h1 : -(2 ^ 63) ≤ d)
    (h2 : d < 2 ^ 63) : numbertobignum d = fromInt d := by
  rw [eq_fromInt_of_norm (numbertobignum_norm d), numbertobignum_val d h1 h2]

/-! ### Claim C1: number-to-BigInt conversion is exact -/

/-- C1: for every host number `d` whose value is an integer in the
host's exact-integer range (the range of `luaBn_Int = int64_t`,
including the most negative representable value `-2^63`),
`numbertobignum d` produces a BigInt whose mathematical value is
exactly `d` — the conversion is lossless for negative as well as
positive inputs. -/
theorem c1_numbertobignum_exact (d : Int) (h1 : -(2 ^ 63) ≤ d)
    (h2 : d < 2 ^ 63) : (numbertobignum d).val = d :=
  numbertobignum_val d h1 h2

/-- Witness for C1 at the most negative representable value. -/
theorem c1_numbertobignum_exact_witness :
    -(2 ^ 63) ≤ (-(2 ^ 63) : Int) ∧ (-(2 ^ 63) : Int) < 2 ^ 63 ∧
      (numbertobignum (-(2 ^ 63))).val = -(2 ^ 63) :=
  ⟨le_refl _, by norm_num,
    c1_numbertobignum_exact (-(2 ^ 63)) (le_refl _) (by norm_num)⟩

/-! ### Claim C2: the shape of the negative-number conversion -/

/-- C2 as stated is false: at `d = -1` the limb-accumulation phase
yields `2^64 - 1` (the 64-bit two's-complement pattern of `-1`), not
the unsigned magnitude `trunc(|d|) = 1`. -/
theorem c2_counterexample :
    (numacc (((-1 : Int)) % 2 ^ 64).toNat).val = 2 ^ 64 - 1 ∧
      (numacc (((-1 : Int)) % 2 ^ 64).toNat).val ≠ 1 := by
  constructor <;> decide

/-- C2 (amended): for every negative integral host number `d`, the
limb-accumulation phase yields the 64-bit two's-complement pattern
`d mod 2^64 = 2^64 - |d|` (not the unsigned magnitude `|d|`), and the
sign step then subtracts `2^64` — one word-subtraction when the host
width is below the library word width, two word-subtractions when
equal, the cached big-integer `2^W` constant when above — producing the
final value `d`. -/
theorem c2_negative_conversion_shape (d : Int) (h1 : -(2 ^ 63) ≤ d)
    (h2 : d < 0) :
    (numacc ((d % (2 ^ 64 : Int)).toNat)).val = d + 2 ^ 64 ∧
    numbertobignum d
      = signStep 64 LUABN_UINT_MAX (numacc ((d % (2 ^ 64 : Int)).toNat)) ∧
    (∀ (W u : Nat) (rv : BN), (signStep W u rv).val = rv.val - 2 ^ W) ∧
    (numbertobignum d).val = d := by
  have e64 : ((2 : Int) ^ 64) = 18446744073709551616 := by norm_num
  have hacc : (numacc ((d % (2 ^ 64 : Int)).toNat)).val = d + 2 ^ 64 := by
    rw [numacc_val]
    · omega
    · omega
  refine ⟨hacc, ?_, fun W u rv => signStep_val W u rv, ?_⟩
  · unfold numbertobignum
    rw [if_pos h2]
  · show (numbertobignum d).val = d
    unfold numbertobignum
    rw [if_pos h2, signStep_val, hacc]
    push_cast
    ring

/-- Witness for C2 (amended) at `d = -1`. -/
theorem c2_negative_conversion_shape_witness :
    -(2 ^ 63) ≤ (-1 : Int) ∧ (-1 : Int) < 0 ∧
      ((numacc (((-1 : Int)) % (2 ^ 64 : Int)).toNat).val = -1 + 2 ^ 64 ∧
       numbertobignum (-1)
         = signStep 64 LUABN_UINT_MAX
             (numacc (((-1 : Int)) % (2 ^ 64 : Int)).toNat) ∧
       (∀ (W u : Nat) (rv : BN), (signStep W u rv).val = rv.val - 2 ^ W) ∧
       (numbertobignum (-1)).val = -1) :=
  ⟨by norm_num, by norm_num,
    c2_negative_conversion_shape (-1) (by norm_num) (by norm_num)⟩

/-! ### Claim C10: `tobin` of zero is the empty byte string -/

/-- C10: `f_tobin` applied to a zero-valued BigInt returns a zero-length
byte string — the minimal big-endian unsigned-magnitude encoding emits
zero bytes for the value 0. -/
theorem c10_tobin_zero_empty (b : BN) (h : b.mag = 0) : f_tobin b = [] := by
  unfold f_tobin
  rw [h]
  simp [bn2bin]

/-- Witness for C10 at the canonical zero. -/
theorem c10_tobin_zero_empty_witness :
    BN_zero'.mag = 0 ∧ f_tobin BN_zero' = [] :=
  ⟨rfl, c10_tobin_zero_empty BN_zero' rfl⟩

/-! ### Claim C6: which strings the parser accepts -/

theorem dec2bn_none_iff (cs : List Char) :
    dec2bn cs = none ↔ headDigitAfterSign Char.isDigit cs = false := by
  cases cs with
  | nil => simp [dec2bn, headDigitAfterSign]
  | cons c t =>
    by_cases hc : c = '-'
    · subst hc
      cases t with
      | nil => simp [dec2bn, headDigitAfterSign]
      | cons c2 t2 =>
        cases hd : c2.isDigit <;>
          simp [dec2bn, headDigitAfterSign, List.takeWhile_cons, hd]
    · have hb : (some c == some '-') = false := by
        rw [beq_eq_false_iff_ne]
        simp [hc]
      cases hd : c.isDigit <;>
        simp [dec2bn, headDigitAfterSign, List.takeWhile_cons, hd, hc, hb]

theorem hex2bn_none_iff (cs : List Char) :
    hex2bn cs = none ↔ headDigitAfterSign isXDigit cs = false := by
  cases cs with
  | nil => simp [hex2bn, headDigitAfterSign]
  | cons c t =>
    by_cases hc : c = '-'
    · subst hc
      cases t with
      | nil => simp [hex2bn, headDigitAfterSign]
      | cons c2 t2 =>
        cases hd : isXDigit c2 <;>
          simp [hex2bn, headDigitAfterSign, List.takeWhile_cons, hd]
    · have hb : (some c == some '-') = false := by
        rw [beq_eq_false_iff_ne]
        simp [hc]
      cases hd : isXDigit c <;>
        simp [hex2bn, headDigitAfterSign, List.takeWhile_cons, hd, hc, hb]

/-- C6 as stated is false: the string `"12abc"` is not a valid
optionally-signed decimal or hex numeral in full, yet `stringtobignum`
accepts it without error (the underlying parser consumes the prefix
`"12"` and ignores the rest). -/
theorem c6_counterexample :
    stringtobignum "12abc" = .ok ⟨false, 12⟩ ∧
      isValidNumeralSpec "12abc" = false := by
  constructor <;> decide

/-- C6 (amended): coercion of a string operand fails with a parse error
if and only if the underlying parser consumes zero numeral digits: with
the code's hex-prefix detection (at most one leading `0` before
`x`/`X`), acceptance requires only that the selected body begin with an
optionally-signed digit of the selected base; trailing garbage after a
nonempty digit run is accepted. -/
theorem err_iff_hexdec (cond : Prop) [Decidable cond] (X cs : List Char) :
    (∃ e, (if cond then
             match hex2bn X with
             | some b => Except.ok b
             | none => Except.error (Err.parse "unable to parse bn.number")
           else
             match dec2bn cs with
             | some b => Except.ok b
             | none => Except.error (Err.parse "unable to parse bn.number"))
        = Except.error e)
      ↔ (if cond then headDigitAfterSign isXDigit X
         else headDigitAfterSign Char.isDigit cs) = false := by
  split
  · rcases hh : hex2bn X with _ | b
    · have h2 := (hex2bn_none_iff X).mp hh
      simp [h2]
    · have h2 : ¬(headDigitAfterSign isXDigit X = false) := by
        intro hf
        have hn := (hex2bn_none_iff X).mpr hf
        rw [hh] at hn
        exact absurd hn (by simp)
      simp [h2]
  · rcases hh : dec2bn cs with _ | b
    · have h2 := (dec2bn_none_iff cs).mp hh
      simp [h2]
    · have h2 : ¬(headDigitAfterSign Char.isDigit cs = false) := by
        intro hf
        have hn := (dec2bn_none_iff cs).mpr hf
        rw [hh] at hn
        exact absurd hn (by simp)
      simp [h2]

/-- C6 (amended, proof): the failure condition of `stringtobignum` is
exactly the grammar `acceptedNumeralHead` failing. -/
theorem c6_parse_error_iff (s : String) :
    (∃ e, stringtobignum s = .error e) ↔ acceptedNumeralHead s = false := by
  simp only [stringtobignum, acceptedNumeralHead]
  exact err_iff_hexdec _ _ _

/-! ### Claim C4: add/sub word fast path agrees with the generic path -/

theorem absnumber_int64 (k : Int) (h1 : -(2 ^ 63) ≤ k) (h2 : k < 2 ^ 63) :
    absnumber k = k.natAbs := by
  unfold absnumber
  split_ifs <;> omega

theorem absnumber_zero : absnumber 0 = 0 := rfl

theorem h_addsub_generic (sgn : Int) (em : String) (mt : Bool) (x y : BN) :
    h_addsub sgn em mt (.big x) (.big y)
      = .ok (if 0 < sgn then BN_add x y else BN_sub x y) := rfl

theorem h_addsub_add_big_num (em : String) (a : BN) (k : Int)
    (h1 : -(2 ^ 63) ≤ k) (h2 : k < 2 ^ 63) (hk : k ≠ 0) :
    h_addsub 1 em false (.big a) (.num k) = .ok (fromInt (a.val + k)) := by
  have habs : absnumber k = k.natAbs := absnumber_int64 k h1 h2
  have hnz : ¬(k.natAbs = 0) := by omega
  simp only [h_addsub, lua_tonumberOp, luaBn_tobignumOp, Bool.false_eq_true,
    if_false, habs]
  rw [if_neg hnz, if_neg (by norm_num)]
  by_cases hks : 0 < k
  · rw [if_pos (by omega)]
    simp only [BN_copy, BN_add_word]
    congr 2
    omega
  · rw [if_neg (by omega)]
    simp only [BN_copy, BN_sub_word]
    congr 2
    omega

theorem h_addsub_add_num_big (em : String) (a : BN) (k : Int)
    (h1 : -(2 ^ 63) ≤ k) (h2 : k < 2 ^ 63) (hk : k ≠ 0) :
    h_addsub 1 em false (.num k) (.big a) = .ok (fromInt (a.val + k)) := by
  have habs : absnumber k = k.natAbs := absnumber_int64 k h1 h2
  have hnz : ¬(k.natAbs = 0) := by omega
  simp only [h_addsub, lua_tonumberOp, luaBn_tobignumOp, habs]
  rw [if_neg hnz, if_neg (by norm_num)]
  by_cases hks : 0 < k
  · rw [if_pos (by omega)]
    simp only [BN_copy, BN_add_word]
    congr 2
    omega
  · rw [if_neg (by omega)]
    simp only [BN_copy, BN_sub_word]
    congr 2
    omega

theorem h_addsub_sub_big_num (em : String) (a : BN) (k : Int)
    (h1 : -(2 ^ 63) ≤ k) (h2 : k < 2 ^ 63) (hk : k ≠ 0) :
    h_addsub (-1) em false (.big a) (.num k) = .ok (fromInt (a.val - k)) := by
  have habs : absnumber k = k.natAbs := absnumber_int64 k h1 h2
  have hnz : ¬(k.natAbs = 0) := by omega
  simp only [h_addsub, lua_tonumberOp, luaBn_tobignumOp, Bool.false_eq_true,
    if_false, habs]
  rw [if_neg hnz, if_neg (by norm_num)]
  by_cases hks : 0 < k
  · rw [if_neg (by omega)]
    simp only [BN_copy, BN_sub_word]
    congr 2
    omega
  · rw [if_pos (by omega)]
    simp only [BN_copy, BN_add_word]
    congr 2
    omega

theorem h_addsub_sub_num_big (em : String) (a : BN) (k : Int)
    (h1 : -(2 ^ 63) ≤ k) (h2 : k < 2 ^ 63) (hk : k ≠ 0) :
    h_addsub (-1) em false (.num k) (.big a) = .ok (fromInt (k - a.val)) := by
  have habs : absnumber k = k.natAbs := absnumber_int64 k h1 h2
  have hnz : ¬(k.natAbs = 0) := by omega
  simp only [h_addsub, lua_tonumberOp, luaBn_tobignumOp, habs]
  rw [if_neg hnz, if_pos (by norm_num)]
  by_cases hks : 0 < k
  · rw [if_neg (by omega)]
    simp only [BN_copy, BN_sub_word]
    rw [negatebignum_fromInt]
    congr 2
    omega
  · rw [if_pos (by omega)]
    simp only [BN_copy, BN_add_word]
    rw [negatebignum_fromInt]
    congr 2
    omega

/-- C4: the word fast path of add and sub agrees with the fully generic
path: for every BigInt `a` and every native integer `k` (all of whose
absolute values fit one machine word), `add(a,k) = add(a, number(k))`
and `sub(a,k) = sub(a, number(k))`, and likewise with the arguments in
the other order; in particular subtracting a negative word literal
behaves as adding its absolute value, and a negative literal whose
negation fits a word is handled by the fast path. -/
theorem c4_addsub_fast_path_agrees (a : BN) (k : Int)
    (h1 : -(2 ^ 63) ≤ k) (h2 : k < 2 ^ 63) :
    h_addsub 1 "bn.add" false (.big a) (.num k)
      = h_addsub 1 "bn.add" false (.big a) (.big (numbertobignum k)) ∧
    h_addsub 1 "bn.add" false (.num k) (.big a)
      = h_addsub 1 "bn.add" false (.big (numbertobignum k)) (.big a) ∧
    h_addsub (-1) "bn.sub" false (.big a) (.num k)
      = h_addsub (-1) "bn.sub" false (.big a) (.big (numbertobignum k)) ∧
    h_addsub (-1) "bn.sub" false (.num k) (.big a)
      = h_addsub (-1) "bn.sub" false (.big (numbertobignum k)) (.big a) := by
  by_cases hk : k = 0
  · subst hk
    refine ⟨rfl, rfl, rfl, rfl⟩
  · have hv := numbertobignum_val k h1 h2
    refine ⟨?_, ?_, ?_, ?_⟩
    · rw [h_addsub_add_big_num "bn.add" a k h1 h2 hk, h_addsub_generic]
      rw [if_pos (by norm_num)]
      simp only [BN_add, hv]
    · rw [h_addsub_add_num_big "bn.add" a k h1 h2 hk, h_addsub_generic]
      rw [if_pos (by norm_num)]
      simp only [BN_add, hv]
      congr 2
      ring
    · rw [h_addsub_sub_big_num "bn.sub" a k h1 h2 hk, h_addsub_generic]
      rw [if_neg (by norm_num)]
      simp only [BN_sub, hv]
    · rw [h_addsub_sub_num_big "bn.sub" a k h1 h2 hk, h_addsub_generic]
      rw [if_neg (by norm_num)]
      simp only [BN_sub, hv]

/-- Witness for C4 at `a = -100`, `k = -3` (subtracting a negative word
literal). -/
theorem c4_addsub_fast_path_agrees_witness :
    -(2 ^ 63) ≤ (-3 : Int) ∧ (-3 : Int) < 2 ^ 63 ∧
      (h_addsub 1 "bn.add" false (.big ⟨true, 100⟩) (.num (-3))
        = h_addsub 1 "bn.add" false (.big ⟨true, 100⟩)
            (.big (numbertobignum (-3))) ∧
       h_addsub 1 "bn.add" false (.num (-3)) (.big ⟨true, 100⟩)
        = h_addsub 1 "bn.add" false (.big (numbertobignum (-3)))
            (.big ⟨true, 100⟩) ∧
       h_addsub (-1) "bn.sub" false (.big ⟨true, 100⟩) (.num (-3))
        = h_addsub (-1) "bn.sub" false (.big ⟨true, 100⟩)
            (.big (numbertobignum (-3))) ∧
       h_addsub (-1) "bn.sub" false (.num (-3)) (.big ⟨true, 100⟩)
        = h_addsub (-1) "bn.sub" false (.big (numbertobignum (-3)))
            (.big ⟨true, 100⟩)) :=
  ⟨by norm_num, by norm_num,
    c4_addsub_fast_path_agrees ⟨true, 100⟩ (-3) (by norm_num) (by norm_num)⟩

/-! ### Claim C8: `eq` agrees with `cmp = 0`, including the word fast
path -/

theorem BN_set_negative_false (b : BN) :
    BN_set_negative b false = ⟨false, b.mag⟩ := by
  simp [BN_set_negative]

theorem eqFast_eq_cmp (b : BN) (k : Int) (h1 : -(2 ^ 63) ≤ k)
    (h2 : k < 2 ^ 63) (hk : k ≠ 0) :
    (if (BN_is_negative b == decide (k < 0)) = true then
       BN_is_word (BN_set_negative b false) k.natAbs
     else false) = decide (BN_cmp b (numbertobignum k) = 0) := by
  rw [numbertobignum_eq_fromInt k h1 h2, BN_set_negative_false]
  by_cases hb : b.neg = decide (k < 0)
  · rw [if_pos (by simp [BN_is_negative, hb])]
    simp only [BN_is_word, Bool.not_false, Bool.or_true, Bool.and_true]
    rcases eq_or_ne b.mag k.natAbs with hm | hm
    · have e1 : (b.mag == k.natAbs) = true := by simp [hm]
      have e2 : decide (BN_cmp b (fromInt k) = 0) = true := by
        simp [BN_cmp_eq_zero_iff, fromInt, hb, hm]
      rw [e1, e2]
    · have e1 : (b.mag == k.natAbs) = false := by
        simp [beq_eq_false_iff_ne, hm]
      have e2 : decide (BN_cmp b (fromInt k) = 0) = false := by
        simp only [decide_eq_false_iff_not, BN_cmp_eq_zero_iff, fromInt]
        intro ⟨_, hmm⟩
        exact hm (by simpa using hmm)
      rw [e1, e2]
  · rw [if_neg (by simp [BN_is_negative, hb])]
    have e2 : decide (BN_cmp b (fromInt k) = 0) = false := by
      simp only [decide_eq_false_iff_not, BN_cmp_eq_zero_iff, fromInt]
      intro ⟨hnn, _⟩
      exact hb (by simpa using hnn)
    rw [e2]

theorem eqFast_eq_cmp2 (b : BN) (k : Int) (h1 : -(2 ^ 63) ≤ k)
    (h2 : k < 2 ^ 63) (hk : k ≠ 0) :
    (if (BN_is_negative b == decide (k < 0)) = true then
       BN_is_word (BN_set_negative b false) k.natAbs
     else false) = decide (BN_cmp (numbertobignum k) b = 0) := by
  rw [numbertobignum_eq_fromInt k h1 h2, BN_set_negative_false]
  by_cases hb : b.neg = decide (k < 0)
  · rw [if_pos (by simp [BN_is_negative, hb])]
    simp only [BN_is_word, Bool.not_false, Bool.or_true, Bool.and_true]
    rcases eq_or_ne b.mag k.natAbs with hm | hm
    · have e1 : (b.mag == k.natAbs) = true := by simp [hm]
      have e2 : decide (BN_cmp (fromInt k) b = 0) = true := by
        simp [BN_cmp_eq_zero_iff, fromInt, hb, hm]
      rw [e1, e2]
    · have e1 : (b.mag == k.natAbs) = false := by
        simp [beq_eq_false_iff_ne, hm]
      have e2 : decide (BN_cmp (fromInt k) b = 0) = false := by
        simp only [decide_eq_false_iff_not, BN_cmp_eq_zero_iff, fromInt]
        intro ⟨_, hmm⟩
        exact hm (by simpa using hmm.symm)
      rw [e1, e2]
  · rw [if_neg (by simp [BN_is_negative, hb])]
    have e2 : decide (BN_cmp (fromInt k) b = 0) = false := by
      simp only [decide_eq_false_iff_not, BN_cmp_eq_zero_iff, fromInt]
      intro ⟨hnn, _⟩
      exact hb (by simpa using hnn.symm)
    rw [e2]

/-- C8 as stated is false: strings are accepted operands of both `eq`
and `cmp`, and on the string `"-0x10"` against the `bn.number` −16 the
two disagree.  `eq`'s word fast path reads the string through the
host lexer (`lua_tonumber`, value −16, sign and magnitude match) and
returns true, while `cmp` coerces the string through
`luaBn_tobignum`/`BN_dec2bn`, whose decimal branch parses only `"-0"`
(value 0, since the `-` before `0x` defeats the hex-prefix detection),
and returns 1 — in the other argument order, −1. -/
theorem c8_counterexample :
    f_eq (.str "-0x10") (.big ⟨true, 16⟩) = .ok true ∧
    f_cmp (.str "-0x10") (.big ⟨true, 16⟩) = .ok 1 ∧
    f_eq (.big ⟨true, 16⟩) (.str "-0x10") = .ok true ∧
    f_cmp (.big ⟨true, 16⟩) (.str "-0x10") = .ok (-1) := by decide

/-- C8 (amended): for every pair of accepted non-string operands — a
`bn.number` or a native number in the exact `int64` range — `eq`
returns true exactly when `cmp` returns 0, including on the dedicated
word fast path of `eq` (one operand a `bn.number`, the other a native
number fitting a machine word, compared by sign and magnitude without
constructing a temporary BigInt).  For string operands the equivalence
fails (`c8_counterexample`): `eq` compares against the host lexer's
value while `cmp` compares against the `BN_dec2bn` parse, and the two
lexers disagree on negated hex numerals. -/
theorem c8_eq_iff_cmp_zero (x y : Operand) (hx : opOK x) (hy : opOK y) :
    ∃ c, f_cmp x y = .ok c ∧ f_eq x y = .ok (decide (c = 0)) := by
  cases x with
  | str s => exact absurd hx (by simp [opOK])
  | big b1 =>
    cases y with
    | str s => exact absurd hy (by simp [opOK])
    | big b2 => exact ⟨BN_cmp b1 b2, rfl, rfl⟩
    | num k =>
      obtain ⟨hk1, hk2⟩ := hy
      refine ⟨BN_cmp b1 (numbertobignum k), rfl, ?_⟩
      by_cases hk : k = 0
      · subst hk; rfl
      · have habs : absnumber k = k.natAbs := absnumber_int64 k hk1 hk2
        have hnz : ¬(k.natAbs = 0) := by omega
        simp only [f_eq, lua_tonumberOp, habs]
        rw [if_neg hnz]
        rw [← eqFast_eq_cmp b1 k hk1 hk2 hk]
        by_cases hc : (BN_is_negative b1 == decide (k < 0)) = true
        · rw [if_pos hc, if_pos hc]
        · rw [if_neg hc, if_neg hc]
  | num j =>
    cases y with
    | str s => exact absurd hy (by simp [opOK])
    | big b2 =>
      obtain ⟨hj1, hj2⟩ := hx
      refine ⟨BN_cmp (numbertobignum j) b2, rfl, ?_⟩
      by_cases hj : j = 0
      · subst hj; rfl
      · have habs : absnumber j = j.natAbs := absnumber_int64 j hj1 hj2
        have hnz : ¬(j.natAbs = 0) := by omega
        simp only [f_eq, lua_tonumberOp, habs]
        rw [if_neg hnz]
        rw [← eqFast_eq_cmp2 b2 j hj1 hj2 hj]
        by_cases hc : (BN_is_negative b2 == decide (j < 0)) = true
        · rw [if_pos hc, if_pos hc]
        · rw [if_neg hc, if_neg hc]
    | num k2 =>
      obtain ⟨hj1, hj2⟩ := hx
      refine ⟨BN_cmp (numbertobignum j) (numbertobignum k2), rfl, ?_⟩
      by_cases hj : j = 0
      · subst hj; rfl
      · have habs : absnumber j = j.natAbs := absnumber_int64 j hj1 hj2
        have hnz : ¬(j.natAbs = 0) := by omega
        simp only [f_eq, lua_tonumberOp, luaBn_tobignumOp, habs]
        rw [if_neg hnz]
        rw [← eqFast_eq_cmp2 (numbertobignum k2) j hj1 hj2 hj]
        by_cases hc :
            (BN_is_negative (numbertobignum k2) == decide (j < 0)) = true
        · rw [if_pos hc, if_pos hc]
        · rw [if_neg hc, if_neg hc]

/-- Witness for C8 on the fast path: `a = -100` (BigInt), `k = -100`. -/
theorem c8_eq_iff_cmp_zero_witness :
    opOK (.big ⟨true, 100⟩) ∧ opOK (.num (-100)) ∧
      ∃ c, f_cmp (.big ⟨true, 100⟩) (.num (-100)) = .ok c ∧
        f_eq (.big ⟨true, 100⟩) (.num (-100)) = .ok (decide (c = 0)) :=
  ⟨trivial, by constructor <;> norm_num,
    c8_eq_iff_cmp_zero (.big ⟨true, 100⟩) (.num (-100)) trivial
      (by constructor <;> norm_num)⟩

/-! ### Claim C3: div/mod Euclidean identity and remainder sign -/

theorem val_mk_and (f : Bool) (m : Nat) :
    (BN.mk (f && !(m == 0)) m).val = if f then -(m : Int) else (m : Int) := by
  cases f <;> by_cases hm : m = 0 <;> simp [BN.val, hm]

theorem val_set_negative_word (rem : Nat) (s : Bool) :
    (BN_set_negative (BN_set_word rem) s).val
      = if s then -(rem : Int) else (rem : Int) := by
  cases s <;> by_cases hm : rem = 0 <;>
    simp [BN_set_negative, BN_set_word, BN_is_zero, BN.val, hm]

theorem val_eq_zero_iff_mag (b : BN) : b.val = 0 ↔ b.mag = 0 := by
  obtain ⟨n, m⟩ := b
  cases n <;> simp [BN.val] <;> omega

theorem modSign (s : Bool) (am n : Nat) :
    (if s then -((am % n : Nat) : Int) else ((am % n : Nat) : Int)) = 0 ∨
    Int.sign (if s then -((am % n : Nat) : Int) else ((am % n : Nat) : Int))
      = Int.sign (if s then -(am : Int) else (am : Int)) := by
  by_cases hrem : am % n = 0
  · left; simp [hrem]
  · right
    have ham : am ≠ 0 := by
      intro h0
      subst h0
      simp at hrem
    cases s
    · simp only [Bool.false_eq_true, if_false]
      rw [Int.sign_natCast_of_ne_zero hrem, Int.sign_natCast_of_ne_zero ham]
    · simp only [if_true]
      rw [Int.sign_neg, Int.sign_neg,
        Int.sign_natCast_of_ne_zero hrem, Int.sign_natCast_of_ne_zero ham]

theorem BN_div'_spec (a b : BN) (hb : b.mag ≠ 0) :
    ∃ q r, BN_div' a b = some (q, r) ∧
      a.val = q.val * b.val + r.val ∧
      (r.val = 0 ∨ Int.sign r.val = Int.sign a.val) ∧
      r.val.natAbs < b.val.natAbs := by
  obtain ⟨an, am⟩ := a
  obtain ⟨bn, bm⟩ := b
  simp only at hb
  unfold BN_div'
  rw [if_neg hb]
  refine ⟨_, _, rfl, ?_, ?_, ?_⟩
  · rw [val_mk_and, val_mk_and]
    cases an <;> cases bn <;> simp [BN.val] <;>
      linarith [Int.ediv_add_emod (am : Int) (bm : Int)]
  · rw [val_mk_and]
    exact modSign an am bm
  · rw [val_mk_and]
    have hml : am % bm < bm := Nat.mod_lt _ (by omega)
    cases an <;> cases bn <;>
      simp only [BN.val, Bool.false_eq_true, if_false, if_true, eq_self_iff_true,
        Int.natAbs_neg, Int.natAbs_ofNat] <;>
      omega

theorem negatebignum_mag (b : BN) : (negatebignum b).mag = b.mag := by
  unfold negatebignum BN_set_negative
  split <;> rfl

theorem negatebignum_cases (b : BN) :
    negatebignum b = if b.mag = 0 then ⟨false, 0⟩ else ⟨!b.neg, b.mag⟩ := by
  by_cases hm : b.mag = 0 <;> cases hbn : b.neg <;>
    simp [negatebignum, BN_set_negative, BN_is_negative, BN_is_zero, hm, hbn]

theorem divword_fast_q_val (b1 : BN) (k : Int) (hk : k ≠ 0) :
    ((BN_div_word (if 0 < -k then negatebignum b1 else b1) k.natAbs).1).val
      = if (b1.neg != decide (k < 0)) = true
        then -((b1.mag / k.natAbs : Nat) : Int)
        else ((b1.mag / k.natAbs : Nat) : Int) := by
  by_cases hks : 0 < -k
  · rw [if_pos hks]
    have hd : decide (k < 0) = true := by
      rw [decide_eq_true_eq]; omega
    rw [hd]
    by_cases hm : b1.mag = 0
    · rw [negatebignum_cases, if_pos hm]
      simp only [BN_div_word]
      rw [val_mk_and]
      simp [hm, Nat.zero_div]
    · rw [negatebignum_cases, if_neg hm]
      simp only [BN_div_word]
      rw [val_mk_and]
      cases hbn : b1.neg <;> simp
  · rw [if_neg hks]
    have hd : decide (k < 0) = false := by
      rw [decide_eq_false_iff_not]; omega
    rw [hd]
    simp only [BN_div_word]
    rw [val_mk_and]
    cases hbn : b1.neg <;> simp

theorem divmod_fast_identity (b1 : BN) (k : Int) (hk : k ≠ 0) :
    b1.val =
      (if (b1.neg != decide (k < 0)) = true
       then -((b1.mag / k.natAbs : Nat) : Int)
       else ((b1.mag / k.natAbs : Nat) : Int)) * k
      + (if b1.neg = true then -((b1.mag % k.natAbs : Nat) : Int)
         else ((b1.mag % k.natAbs : Nat) : Int)) := by
  obtain ⟨s, m⟩ := b1
  have hdmz : ((k.natAbs : Nat) : Int) * ((m / k.natAbs : Nat) : Int)
      + ((m % k.natAbs : Nat) : Int) = (m : Int) := by
    exact_mod_cast Nat.div_add_mod m k.natAbs
  by_cases hks : k < 0
  · have hd : decide (k < 0) = true := by rw [decide_eq_true_eq]; exact hks
    have hnk : ((k.natAbs : Nat) : Int) = -k := by omega
    rw [hnk] at hdmz
    simp only [hd]
    cases s
    · have hv : (BN.mk false m).val = (m : Int) := by simp [BN.val]
      rw [hv, if_pos (by decide), if_neg (by decide)]
      linarith [hdmz]
    · have hv : (BN.mk true m).val = -(m : Int) := by simp [BN.val]
      rw [hv, if_neg (by decide), if_pos (by decide)]
      linarith [hdmz]
  · have hd : decide (k < 0) = false := by rw [decide_eq_false_iff_not]; exact hks
    have hnk : ((k.natAbs : Nat) : Int) = k := by omega
    rw [hnk] at hdmz
    simp only [hd]
    cases s
    · have hv : (BN.mk false m).val = (m : Int) := by simp [BN.val]
      rw [hv, if_neg (by decide), if_neg (by decide)]
      linarith [hdmz]
    · have hv : (BN.mk true m).val = -(m : Int) := by simp [BN.val]
      rw [hv, if_pos (by decide), if_pos (by decide)]
      linarith [hdmz]

/-- C3: for every dividend and every nonzero divisor (each a BigInt or a
coercible native number; the `__mod` metamethod additionally requires at
least one `bn.number` operand), `div` and `mod` satisfy
`a = div(a,b)*b + mod(a,b)`, and the sign of `mod(a,b)` equals the sign
of `a` (truncating-division remainder), with `|mod(a,b)| < |b|`, on both
the word fast path and the generic multi-precision path. -/
theorem c3_divmod_truncating (x y : Operand) (hx : opOK x) (hy : opOK y)
    (hy0 : opVal y ≠ 0)
    (hreach : (∃ b, x = .big b) ∨ (∃ b, y = .big b)) :
    ∃ q r, h_div "bn.div" false x y = .ok q ∧ mt_mod x y = .ok r ∧
      opVal x = q.val * opVal y + r.val ∧
      (r.val = 0 ∨ Int.sign r.val = Int.sign (opVal x)) ∧
      r.val.natAbs < (opVal y).natAbs := by
  cases y with
  | str s => exact absurd hy (by simp [opOK])
  | big b2 =>
    have hb2 : b2.mag ≠ 0 := by
      intro h
      exact hy0 (by simp [opVal, (val_eq_zero_iff_mag b2).mpr h])
    cases x with
    | str s => exact absurd hx (by simp [opOK])
    | big b1 =>
      obtain ⟨q, r, hqr, hid, hsg, hbd⟩ := BN_div'_spec b1 b2 hb2
      refine ⟨q, r, ?_, ?_, hid, hsg, hbd⟩
      · simp only [h_div, luaBn_tobignumOp, hqr]
      · simp only [mt_mod, luaBn_tobignumOp, hqr]
    | num j =>
      obtain ⟨hj1, hj2⟩ := hx
      obtain ⟨q, r, hqr, hid, hsg, hbd⟩ :=
        BN_div'_spec (numbertobignum j) b2 hb2
      have hv := numbertobignum_val j hj1 hj2
      refine ⟨q, r, ?_, ?_, ?_, ?_, hbd⟩
      · simp only [h_div, luaBn_tobignumOp, hqr]
      · simp only [mt_mod, luaBn_tobignumOp, hqr]
      · simp only [opVal]
        rw [← hv]
        exact hid
      · simp only [opVal]
        rw [← hv]
        exact hsg
  | num k =>
    obtain ⟨hk1, hk2⟩ := hy
    have hk : k ≠ 0 := by simpa [opVal] using hy0
    obtain ⟨b1, rfl⟩ : ∃ b, x = .big b := by
      rcases hreach with ⟨b, hbx⟩ | ⟨b, hby⟩
      · exact ⟨b, hbx⟩
      · exact absurd hby (by simp)
    have habs : absnumber k = k.natAbs := absnumber_int64 k hk1 hk2
    have hnz : ¬(k.natAbs = 0) := by omega
    have hnpos : 0 < k.natAbs := by omega
    have hmlt : b1.mag % k.natAbs < k.natAbs := Nat.mod_lt _ hnpos
    have hmagmod : (if 0 < -k then negatebignum b1 else b1).mag = b1.mag := by
      split
      · exact negatebignum_mag b1
      · rfl
    have hnot : (BN_div_word (if 0 < -k then negatebignum b1 else b1)
        k.natAbs).2 ≠ LUABN_UINT_MAX := by
      simp only [BN_div_word, hmagmod, LUABN_UINT_MAX]
      omega
    have hdiv : h_div "bn.div" false (.big b1) (.num k)
        = .ok (BN_div_word (if 0 < -k then negatebignum b1 else b1)
            k.natAbs).1 := by
      simp only [h_div, lua_tonumberOp, luaBn_tobignumOp, Bool.false_eq_true,
        if_false, habs, BN_copy]
      rw [if_neg hnz, if_pos hnot]
    have hmod : mt_mod (.big b1) (.num k)
        = .ok (BN_set_negative (BN_set_word (b1.mag % k.natAbs))
            (BN_is_negative b1)) := by
      simp only [mt_mod, lua_tonumberOp, habs, BN_mod_word]
      rw [if_neg hnz, if_pos hmlt]
    refine ⟨_, _, hdiv, hmod, ?_, ?_, ?_⟩
    · rw [divword_fast_q_val b1 k hk]
      have hrv : (BN_set_negative (BN_set_word (b1.mag % k.natAbs))
          (BN_is_negative b1)).val
          = if b1.neg = true then -((b1.mag % k.natAbs : Nat) : Int)
            else ((b1.mag % k.natAbs : Nat) : Int) := by
        rw [val_set_negative_word]
        rfl
      rw [hrv]
      simp only [opVal]
      exact divmod_fast_identity b1 k hk
    · have hrv : (BN_set_negative (BN_set_word (b1.mag % k.natAbs))
          (BN_is_negative b1)).val
          = if b1.neg = true then -((b1.mag % k.natAbs : Nat) : Int)
            else ((b1.mag % k.natAbs : Nat) : Int) := by
        rw [val_set_negative_word]
        rfl
      rw [hrv]
      simp only [opVal]
      have hms := modSign b1.neg b1.mag k.natAbs
      have hbv : (if b1.neg = true then -(b1.mag : Int) else (b1.mag : Int))
          = b1.val := rfl
      rw [hbv] at hms
      exact hms
    · have hrv : (BN_set_negative (BN_set_word (b1.mag % k.natAbs))
          (BN_is_negative b1)).val
          = if b1.neg = true then -((b1.mag % k.natAbs : Nat) : Int)
            else ((b1.mag % k.natAbs : Nat) : Int) := by
        rw [val_set_negative_word]
        rfl
      rw [hrv]
      simp only [opVal]
      cases hbn : b1.neg <;>
        simp only [if_true, Bool.false_eq_true, if_false, Int.natAbs_neg,
          Int.natAbs_ofNat] <;>
        omega

/-- Witness for C3: dividend `-7` (BigInt), divisor `2` (native number,
word fast path). -/
theorem c3_divmod_truncating_witness :
    opOK (.big ⟨true, 7⟩) ∧ opOK (.num 2) ∧ opVal (.num 2) ≠ 0 ∧
      ∃ q r, h_div "bn.div" false (.big ⟨true, 7⟩) (.num 2) = .ok q ∧
        mt_mod (.big ⟨true, 7⟩) (.num 2) = .ok r ∧
        opVal (.big ⟨true, 7⟩) = q.val * opVal (.num 2) + r.val ∧
        (r.val = 0 ∨ Int.sign r.val = Int.sign (opVal (.big ⟨true, 7⟩))) ∧
        r.val.natAbs < (opVal (.num 2)).natAbs :=
  ⟨trivial, by constructor <;> norm_num, by norm_num [opVal],
    c3_divmod_truncating (.big ⟨true, 7⟩) (.num 2) trivial
      (by constructor <;> norm_num) (by norm_num [opVal])
      (Or.inl ⟨⟨true, 7⟩, rfl⟩)⟩

/-! ### Claim C5: zero divisors and non-positive moduli raise errors -/

/-- C5: `div(a, 0)` and `mod(a, 0)` — with the zero divisor supplied as
a native number, a numeral string, or a BigInt — and `modpow` with a
non-positive modulus raise an arithmetic error through the error mapper
and never return a result value. -/
theorem c5_zero_divisor_errors (x e z : Operand) (a be m : BN) (em : String)
    (hxa : luaBn_tobignumOp x = .ok a) (hee : luaBn_tobignumOp e = .ok be)
    (hzm : luaBn_tobignumOp z = .ok m) (hm : m.val ≤ 0) :
    h_div em false x (.num 0) = .error (.arith em) ∧
    h_div em false x (.str "0") = .error (.arith em) ∧
    (∀ b0 : BN, b0.mag = 0 →
      h_div em false x (.big b0) = .error (.arith em)) ∧
    mt_mod (.big a) (.num 0) = .error (.arith "bn.number.__mod") ∧
    mt_mod (.big a) (.str "0") = .error (.arith "bn.number.__mod") ∧
    (∀ b0 : BN, b0.mag = 0 →
      mt_mod x (.big b0) = .error (.arith "bn.number.__mod")) ∧
    f_modpow x e z = .error (.arith "bn.modpow") := by
  have h0m : (numbertobignum 0).mag = 0 := by decide
  have hs0 : luaBn_tobignumOp (.str "0") = .ok BN_zero' := by decide
  have ht0 : lua_tonumberOp (.str "0") = 0 := by decide
  have hnum0 : luaBn_tobignumOp (.num 0) = .ok (numbertobignum 0) := rfl
  refine ⟨?_, ?_, ?_, ?_, ?_, ?_, ?_⟩
  · simp [h_div, lua_tonumberOp, hxa, absnumber_zero, hnum0, BN_div', h0m]
  · simp [h_div, ht0, hxa, absnumber_zero, hs0, BN_div', BN_zero']
  · intro b0 hb0
    simp [h_div, hxa, BN_div', hb0]
  · simp [mt_mod, lua_tonumberOp, absnumber_zero, hnum0, BN_div', h0m]
  · simp [mt_mod, ht0, absnumber_zero, hs0, BN_div', BN_zero']
  · intro b0 hb0
    simp [mt_mod, hxa, BN_div', hb0]
  · simp [f_modpow, hxa, hee, hzm, BN_mod_exp, hm]

set_option maxRecDepth 4000 in
/-- Witness for C5 with a BigInt dividend, exponent 2, modulus `-5`. -/
theorem c5_zero_divisor_errors_witness :
    luaBn_tobignumOp (.big ⟨false, 7⟩) = .ok ⟨false, 7⟩ ∧
    luaBn_tobignumOp (.num 2) = .ok (numbertobignum 2) ∧
    luaBn_tobignumOp (.num (-5)) = .ok (numbertobignum (-5)) ∧
    (numbertobignum (-5)).val ≤ 0 ∧
    (h_div "bn.div" false (.big ⟨false, 7⟩) (.num 0)
        = .error (.arith "bn.div") ∧
     h_div "bn.div" false (.big ⟨false, 7⟩) (.str "0")
        = .error (.arith "bn.div") ∧
     (∀ b0 : BN, b0.mag = 0 →
       h_div "bn.div" false (.big ⟨false, 7⟩) (.big b0)
          = .error (.arith "bn.div")) ∧
     mt_mod (.big ⟨false, 7⟩) (.num 0) = .error (.arith "bn.number.__mod") ∧
     mt_mod (.big ⟨false, 7⟩) (.str "0") = .error (.arith "bn.number.__mod") ∧
     (∀ b0 : BN, b0.mag = 0 →
       mt_mod (.big ⟨false, 7⟩) (.big b0)
          = .error (.arith "bn.number.__mod")) ∧
     f_modpow (.big ⟨false, 7⟩) (.num 2) (.num (-5))
        = .error (.arith "bn.modpow")) :=
  ⟨rfl, rfl, rfl, by decide,
    c5_zero_divisor_errors (.big ⟨false, 7⟩) (.num 2) (.num (-5))
      ⟨false, 7⟩ (numbertobignum 2) (numbertobignum (-5)) "bn.div"
      rfl rfl rfl (by decide)⟩

/-! ### Claim C7: zero is always stored with a non-negative sign -/

theorem normZero_ite (c : Prop) [Decidable c] (u v : BN) (hu : normZero u)
    (hv : normZero v) : normZero (if c then u else v) := by
  split <;> assumption

theorem mk_and_norm (f : Bool) (m : Nat) :
    normZero (BN.mk (f && !(m == 0)) m) := by
  intro hm
  simp only at hm
  simp [hm]

theorem BN_set_word_norm (w : Nat) : normZero (BN_set_word w) := fun _ => rfl

theorem hex2bn_norm (cs : List Char) (b : BN) (hb : hex2bn cs = some b) :
    normZero b := by
  dsimp only [hex2bn] at hb
  repeat' split at hb
  all_goals
    first
      | (simp at hb; done)
      | (injection hb with h2
         exact h2 ▸ BN_set_negative_norm _ _)

theorem dec2bn_norm (cs : List Char) (b : BN) (hb : dec2bn cs = some b) :
    normZero b := by
  dsimp only [dec2bn] at hb
  repeat' split at hb
  all_goals
    first
      | (simp at hb; done)
      | (injection hb with h2
         exact h2 ▸ BN_set_negative_norm _ _)

theorem stringtobignum_norm (s : String) (b : BN)
    (hb : stringtobignum s = .ok b) : normZero b := by
  dsimp only [stringtobignum] at hb
  repeat' split at hb
  all_goals
    first
      | (simp at hb; done)
      | (injection hb with h2
         exact h2 ▸ hex2bn_norm _ _ (by assumption))
      | (injection hb with h2
         exact h2 ▸ dec2bn_norm _ _ (by assumption))

theorem tobignum_norm (x : Operand) (hx : opNorm x) :
    ∀ b, luaBn_tobignumOp x = .ok b → normZero b := by
  cases x with
  | num d =>
    intro b hb
    injection hb with h2
    exact h2 ▸ numbertobignum_norm d
  | str s => exact fun b hb => stringtobignum_norm s b hb
  | big b0 =>
    intro b hb
    injection hb with h2
    exact h2 ▸ hx

theorem BN_mul_word_norm (b : BN) (hb : normZero b) (w : Nat) :
    normZero (BN_mul_word b w) := by
  unfold BN_mul_word
  split
  · exact hb
  · split
    · exact fun _ => rfl
    · rename_i hm hw
      intro hz
      rcases Nat.mul_eq_zero.mp hz with h | h
      · exact absurd h hm
      · exact absurd h hw

theorem BN_div'_norm (a b q r : BN) (h : BN_div' a b = some (q, r)) :
    normZero q ∧ normZero r := by
  unfold BN_div' at h
  split at h
  · simp at h
  · injection h with h2
    injection h2 with hq hr
    exact ⟨hq ▸ mk_and_norm _ _, hr ▸ mk_and_norm _ _⟩

theorem h_addsub_norm (sgn : Int) (em : String) (mt : Bool) (x y : Operand) :
    okNorm (h_addsub sgn em mt x y) := by
  intro b hb
  dsimp only [h_addsub] at hb
  repeat' split at hb
  all_goals subst_vars
  all_goals
    first
      | (simp at hb; done)
      | (injection hb with h2
         subst h2
         first
           | exact fromInt_norm _
           | exact BN_set_negative_norm _ _)

theorem h_mul_norm (em : String) (mt : Bool) (x y : Operand)
    (hx : opNorm x) (hy : opNorm y) : okNorm (h_mul em mt x y) := by
  intro b hb
  cases mt <;> cases x <;> cases y
  all_goals
    simp only [h_mul, eq_self_iff_true, if_true, Bool.false_eq_true, if_false,
      lua_tonumberOp, luaBn_tobignumOp] at hb
  all_goals repeat' split at hb
  all_goals subst_vars
  all_goals
    first
      | (simp at hb; done)
      | (injection hb with h2
         subst h2
         first
           | exact fromInt_norm _
           | exact BN_mul_word_norm _ (negatebignum_norm _) _
           | exact BN_mul_word_norm _ hx _
           | exact BN_mul_word_norm _ hy _
           | exact BN_mul_word_norm _ (numbertobignum_norm _) _
           | exact BN_mul_word_norm _ (stringtobignum_norm _ _ (by assumption)) _)

theorem h_div_norm (em : String) (mt : Bool) (x y : Operand) :
    okNorm (h_div em mt x y) := by
  intro b hb
  dsimp only [h_div] at hb
  repeat' split at hb
  all_goals subst_vars
  all_goals
    first
      | (simp at hb; done)
      | (injection hb with h2
         subst h2
         first
           | exact mk_and_norm _ _
           | exact (BN_div'_norm _ _ _ _ (by assumption)).1)

theorem mt_mod_norm (x y : Operand) : okNorm (mt_mod x y) := by
  intro b hb
  dsimp only [mt_mod] at hb
  repeat' split at hb
  all_goals subst_vars
  all_goals
    first
      | (simp at hb; done)
      | (injection hb with h2
         subst h2
         first
           | exact BN_set_negative_norm _ _
           | exact (BN_div'_norm _ _ _ _ (by assumption)).2)

/-- C7: every operation keeps zero normalized.  All `bn.number`-producing
entry points — number conversion, string conversion, unary negation,
add/sub, mul, div, mod — only ever return a `BN` satisfying `normZero`
(zero magnitude implies non-negative sign). -/
theorem c7_zero_normalized :
    (∀ b : BN, normZero (mt_unm b)) ∧
    (∀ d : Int, normZero (numbertobignum d)) ∧
    (∀ (s : String) (b : BN), stringtobignum s = Except.ok b → normZero b) ∧
    (∀ (sgn : Int) (em : String) (mt : Bool) (x y : Operand),
        okNorm (h_addsub sgn em mt x y)) ∧
    (∀ (em : String) (mt : Bool) (x y : Operand),
        opNorm x → opNorm y → okNorm (h_mul em mt x y)) ∧
    (∀ (em : String) (mt : Bool) (x y : Operand), okNorm (h_div em mt x y)) ∧
    (∀ (x y : Operand), okNorm (mt_mod x y)) :=
  ⟨fun b => negatebignum_norm (BN_copy b),
   numbertobignum_norm,
   stringtobignum_norm,
   h_addsub_norm,
   h_mul_norm,
   h_div_norm,
   mt_mod_norm⟩

/-- Witness for C7 at concrete inputs: unary negation of zero,
multiplication of zero by a negative word literal, the word-mod fast
path at a negative dividend with zero remainder, and the numeral
`"-0"` all yield a non-negative zero. -/
theorem c7_zero_normalized_witness :
    opNorm (Operand.big ⟨false, 0⟩) ∧ opNorm (Operand.num (-5)) ∧
    h_mul "" true (Operand.big ⟨false, 0⟩) (Operand.num (-5)) =
      Except.ok ⟨false, 0⟩ ∧
    mt_mod (Operand.big ⟨true, 6⟩) (Operand.num 3) = Except.ok ⟨false, 0⟩ ∧
    stringtobignum "-0" = Except.ok ⟨false, 0⟩ ∧
    mt_unm ⟨false, 0⟩ = ⟨false, 0⟩ ∧
    normZero (⟨false, 0⟩ : BN) :=
  ⟨by decide, by decide, by decide, by decide, by decide, by decide,
   c7_zero_normalized.2.2.2.2.1 "" true (Operand.big ⟨false, 0⟩)
     (Operand.num (-5)) (by decide) (by decide) ⟨false, 0⟩ (by decide)⟩

theorem hpget_append (hp l : List BN) (i : Nat) (h : i < hp.length) :
    hpget (hp ++ l) i = hpget hp i := by
  simp [hpget, List.getD_eq_getElem?_getD, List.getElem?_append_left h]

theorem hpget_set_ne (hp : List BN) (j : Nat) (b : BN) (i : Nat)
    (h : i ≠ j) : hpget (hp.set j b) i = hpget hp i := by
  simp [hpget, List.getD_eq_getElem?_getD, List.getElem?_set, Ne.symm h]

theorem tobignumH_fst_preserves (hp : List BN) (o : OperandH) (i : Nat)
    (h : i < hp.length) : hpget (tobignumH hp o).1 i = hpget hp i := by
  cases o <;> dsimp only [tobignumH]
  · exact hpget_append _ _ _ h
  · split <;> exact hpget_append _ _ _ h

theorem tobignumH_fst_length_ge (hp : List BN) (o : OperandH) :
    hp.length ≤ (tobignumH hp o).1.length := by
  cases o <;> dsimp only [tobignumH]
  · simp
  · split <;> simp
  · exact le_refl _

theorem h_divH_frame (em : String) (mt : Bool) (hp : List BN)
    (x y : OperandH) (i : Nat) (h : i < hp.length) :
    hpget (h_divH em mt hp x y).1 i = hpget hp i := by
  cases mt <;> cases x <;> cases y
  all_goals
    simp only [h_divH, eq_self_iff_true, if_true, Bool.false_eq_true,
      if_false]
  all_goals repeat' split
  all_goals try dsimp only
  all_goals
    repeat
      first
        | rw [hpget_set_ne _ _ _ i (by omega)]
        | rw [tobignumH_fst_preserves _ _ i (by
            repeat refine lt_of_lt_of_le ?_ (tobignumH_fst_length_ge _ _)
            simp only [List.length_append, List.length_cons,
              List.length_nil]
            omega)]
        | rw [hpget_append _ _ i (by omega)]
  all_goals rfl

theorem h_divH_fresh (em : String) (mt : Bool) (hp : List BN)
    (x y : OperandH) (ix : Nat)
    (h : (h_divH em mt hp x y).2 = Except.ok ix) : ix = hp.length := by
  cases mt <;> cases x <;> cases y
  all_goals
    simp only [h_divH, eq_self_iff_true, if_true, Bool.false_eq_true,
      if_false] at h
  all_goals repeat' split at h
  all_goals simp at h
  all_goals omega

theorem mt_modH_frame (hp : List BN) (x y : OperandH) (i : Nat)
    (h : i < hp.length) : hpget (mt_modH hp x y).1 i = hpget hp i := by
  cases x <;> cases y
  all_goals simp only [mt_modH]
  all_goals repeat' split
  all_goals try dsimp only
  all_goals
    repeat
      first
        | rw [hpget_set_ne _ _ _ i (by omega)]
        | rw [tobignumH_fst_preserves _ _ i (by
            repeat refine lt_of_lt_of_le ?_ (tobignumH_fst_length_ge _ _)
            simp only [List.length_append, List.length_cons,
              List.length_nil]
            omega)]
        | rw [hpget_append _ _ i (by omega)]
  all_goals rfl

theorem mt_modH_fresh (hp : List BN) (x y : OperandH) (ix : Nat)
    (h : (mt_modH hp x y).2 = Except.ok ix) : ix = hp.length := by
  cases x <;> cases y
  all_goals simp only [mt_modH] at h
  all_goals repeat' split at h
  all_goals simp at h
  all_goals omega

/-- C9: in the heap model, `div` and `mod` write their result only into
the cell freshly allocated by that same call: every pre-existing heap
cell — in particular both operands — is unchanged on success and on
failure, and a successful call returns the fresh index `hp.length`,
which differs from the index of every pre-existing cell, so the result
never aliases an operand. -/
theorem c9_divmod_fresh_result (em : String) (mt : Bool) (hp : List BN)
    (x y : OperandH) :
    (∀ i, i < hp.length → hpget (h_divH em mt hp x y).1 i = hpget hp i) ∧
    (∀ ix, (h_divH em mt hp x y).2 = Except.ok ix →
       ix = hp.length ∧ ∀ j, j < hp.length → ix ≠ j) ∧
    (∀ i, i < hp.length → hpget (mt_modH hp x y).1 i = hpget hp i) ∧
    (∀ ix, (mt_modH hp x y).2 = Except.ok ix →
       ix = hp.length ∧ ∀ j, j < hp.length → ix ≠ j) :=
  ⟨fun i h => h_divH_frame em mt hp x y i h,
   fun ix h =>
     ⟨h_divH_fresh em mt hp x y ix h,
      fun j hj => by have := h_divH_fresh em mt hp x y ix h; omega⟩,
   fun i h => mt_modH_frame hp x y i h,
   fun ix h =>
     ⟨mt_modH_fresh hp x y ix h,
      fun j hj => by have := mt_modH_fresh hp x y ix h; omega⟩⟩

/-- Witness for C9 at a concrete call: dividing the heap object at
index 0 (value −7) by the native number 2 leaves cell 0 untouched and
returns the freshly appended index 1. -/
theorem c9_divmod_fresh_result_witness :
    (0 : Nat) < [(⟨true, 7⟩ : BN)].length ∧
    hpget (h_divH "div" false [⟨true, 7⟩] (OperandH.big 0)
      (OperandH.num 2)).1 0 = hpget [⟨true, 7⟩] 0 ∧
    (h_divH "div" false [⟨true, 7⟩] (OperandH.big 0)
      (OperandH.num 2)).2 = Except.ok 1 ∧
    (mt_modH [⟨true, 7⟩] (OperandH.big 0) (OperandH.num 2)).2 =
      Except.ok 1 ∧ (1 : Nat) ≠ 0 :=
  ⟨by decide,
   (c9_divmod_fresh_result "div" false [⟨true, 7⟩] (OperandH.big 0)
      (OperandH.num 2)).1 0 (by decide),
   by decide, by decide,
   ((c9_divmod_fresh_result "div" false [⟨true, 7⟩] (OperandH.big 0)
      (OperandH.num 2)).2.1 1 (by decide)).2 0 (by decide)⟩
